import Mathlib

/-!
Verification development for the zkcp repository (conduition/zkcp).

We shallowly embed the pure protocol layer of the repository in Lean:

* the sudoku board codec (`zkvm/common/src/sudoku.rs`):
  `compress_board`, `decompress_board`, `mask_sudoku_solution`,
  `is_valid_sudoku_solution`, `solves_sudoku_puzzle`;
* the scalar arithmetic of `zkvm/common/src/secp256k1.rs`
  (`schnorr_signature`, built over `crypto_bigint`'s `add_mod` and
  the wide modular multiplication `modmul_u256`);
* the sha256_sudoku guest program (`zkvm/sha256_sudoku/src/main.rs`);
* the host-side proof engines (`src/proofs/dlog_secp256k1_generic.rs`,
  `src/proofs/sha256_generic.rs`, `src/proofs/sha256_sudoku.rs`):
  `prove_custom` input validation, `verify`, journal accessors and
  `decrypt_solution`.

Bytes are modelled as natural numbers (with `< 256` hypotheses where a
claim needs them), machine integers as `Nat` with explicit reductions
`% 2 ^ 32` or `% 2 ^ 256` where the Rust code can overflow.  External
primitives — SHA-256, the ChaCha20 stream cipher, secp256k1 group
operations, and the RISC0 receipt verifier — are opaque to this layer
and appear as explicit function parameters of the definitions that use
them; faithfulness claims are therefore relative to those parameters,
exactly as the repository treats the primitives as black boxes.
-/

set_option maxRecDepth 40000

namespace ZKCP

/-! ### Byte-level numeric helpers -/

/-- Interpret a list of bytes as a big-endian natural number
(`U256::from_be_bytes` / `u32::from_be_bytes` on a 32- resp. 4-byte list). -/
def bytesToNatBE (l : List Nat) : Nat :=
  l.foldl (fun acc b => acc * 256 + b) 0

/-- `U256::to_be_bytes`: the 32-byte big-endian encoding of a natural number
below `2 ^ 256`. -/
def natToBytesBE32 (n : Nat) : List Nat :=
  (List.range 32).map (fun i => n / 256 ^ (31 - i) % 256)

/-- The four big-endian bytes of a `u32` (`u32::to_be_bytes`). -/
def toBE4 (v : Nat) : List Nat :=
  [v / 2 ^ 24 % 256, v / 2 ^ 16 % 256, v / 2 ^ 8 % 256, v % 256]

/-- Rebuild a `u32` from four big-endian bytes (`u32::from_be_bytes`). -/
def fromBE4 (a b c d : Nat) : Nat :=
  ((a * 256 + b) * 256 + c) * 256 + d

/-! ### Board codec (`zkvm/common/src/sudoku.rs`)

A `SudokuBoard` is an 81-cell row-major list of bytes; a
`CompactSudokuBoard` is a 36-byte list.  We keep the source's names. -/

/-- The `u32` accumulator loop of `compress_board`:
`row_u32_rep = row_u32_rep * 10 + digit`, in wrapping 32-bit arithmetic. -/
def rowValU32 (row : List Nat) : Nat :=
  row.foldl (fun acc d => (acc * 10 + d) % 2 ^ 32) 0

/-- The same fold without the `u32` reduction (used to reason about the
non-overflowing case). -/
def rowValNat (row : List Nat) : Nat :=
  row.foldl (fun acc d => acc * 10 + d) 0

/-- `compress_board`: fold each of the 9 rows of the board into a base-10
`u32` and serialize it big-endian, concatenating the nine 4-byte chunks. -/
def compress_board (board : List Nat) : List Nat :=
  (List.range 9).flatMap (fun i => toBE4 (rowValU32 ((board.drop (9 * i)).take 9)))

/-- The inner loop of `decompress_board`: `for j in (0..9).rev()`, write
`value % 10` into cell `j` and divide `value` by 10.  `fillRow k v` is the
list of the low `k` base-10 digits of `v`, most significant first. -/
def fillRow : Nat → Nat → List Nat
  | 0, _ => []
  | k + 1, v => fillRow k (v / 10) ++ [v % 10]

/-- The `i`-th 4-byte chunk of a compact board, parsed as a big-endian
`u32` (`u32::from_be_bytes` over `compact_bytes[i*4..][..4]`). -/
def u32At (compact : List Nat) (i : Nat) : Nat :=
  fromBE4 (compact.getD (4 * i) 0) (compact.getD (4 * i + 1) 0)
    (compact.getD (4 * i + 2) 0) (compact.getD (4 * i + 3) 0)

/-- `decompress_board`: reject (returning `none`, the `DecompressionError`
case) if any row's `u32` exceeds `999_999_999`; otherwise repopulate each
row's 9 cells from the base-10 digits. -/
def decompress_board (compact : List Nat) : Option (List Nat) :=
  if (List.range 9).all (fun i => u32At compact i ≤ 999999999)
  then some ((List.range 9).flatMap (fun i => fillRow 9 (u32At compact i)))
  else none

/-- Cell-by-cell recursion of `mask_sudoku_solution`: a mask byte `0`
zeroes the cell, `1` keeps the solution's cell, anything else panics
(modelled as `none`). -/
def maskCells : List Nat → List Nat → Option (List Nat)
  | s :: ss, m :: ms =>
    if m = 0 then (maskCells ss ms).map (fun r => 0 :: r)
    else if m = 1 then (maskCells ss ms).map (fun r => s :: r)
    else none
  | _, _ => some []

/-- `mask_sudoku_solution`: turn a solution into a puzzle by zeroing the
cells whose mask byte is `0`; panics (`none`) on a mask byte outside
`{0, 1}`. -/
def mask_sudoku_solution (solution mask : List Nat) : Option (List Nat) :=
  maskCells solution mask

/-- `check_valid_digit`: fail on a digit outside `1..=9` or one whose
`seen` flag is already set; otherwise set the flag.  The `[bool; 9]`
array is modelled as a total map `Nat → Bool`. -/
def check_valid_digit (digit : Nat) (seen : Nat → Bool) :
    Option (Nat → Bool) :=
  if digit < 1 ∨ 9 < digit then none
  else if seen (digit - 1) then none
  else some (fun j => if j = digit - 1 then true else seen j)

/-- One row/column/subgrid scan of `is_valid_sudoku_solution`: thread the
`seen` flags through `check_valid_digit`, returning `false` on the first
failure. -/
def check_group : List Nat → (Nat → Bool) → Bool
  | [], _ => true
  | d :: rest, seen =>
    match check_valid_digit d seen with
    | none => false
    | some seen2 => check_group rest seen2

/-- The cells of row `row`: `board[row * 9 + column]` for `column` in `0..9`. -/
def rowCells (board : List Nat) (row : Nat) : List Nat :=
  (List.range 9).map (fun column => board.getD (row * 9 + column) 0)

/-- The cells of column `column`: `board[row * 9 + column]` for `row` in `0..9`. -/
def colCells (board : List Nat) (column : Nat) : List Nat :=
  (List.range 9).map (fun row => board.getD (row * 9 + column) 0)

/-- The cells of subgrid `grid`: `board[(grid / 3 * 3 + i / 3) * 9 + (grid % 3) * 3 + i % 3]`
for `i` in `0..9`. -/
def gridCells (board : List Nat) (grid : Nat) : List Nat :=
  (List.range 9).map (fun i =>
    board.getD ((grid / 3 * 3 + i / 3) * 9 + ((grid % 3) * 3 + i % 3)) 0)

/-- `is_valid_sudoku_solution`: every row, column and 3×3 subgrid passes
the `seen`-array scan. -/
def is_valid_sudoku_solution (board : List Nat) : Bool :=
  ((List.range 9).all fun row => check_group (rowCells board row) (fun _ => false)) &&
  ((List.range 9).all fun column => check_group (colCells board column) (fun _ => false)) &&
  ((List.range 9).all fun grid => check_group (gridCells board grid) (fun _ => false))

/-- `solves_sudoku_puzzle`: every puzzle cell is blank or agrees with the
solution. -/
def solves_sudoku_puzzle (solution puzzle : List Nat) : Bool :=
  (solution.zip puzzle).all (fun sp => sp.2 == 0 || sp.1 == sp.2)

/-! ### Scalar arithmetic (`zkvm/common/src/secp256k1.rs`) -/

/-- `SECP256K1_CURVE_ORDER` as a natural number. -/
def SECP256K1_CURVE_ORDER : Nat :=
  0xFFFFFFFFFFFFFFFFFFFFFFFFFFFFFFFEBAAEDCE6AF48A03BBFD25E8CD0364141

/-- `crypto_bigint`'s `U256::add_mod`: add and conditionally subtract the
modulus once (correct whenever both operands are below the modulus). -/
def add_mod (a b modulus : Nat) : Nat :=
  if modulus ≤ a + b then a + b - modulus else a + b

/-- `modmul_u256`: widening multiplication followed by an exact remainder. -/
def modmul_u256 (lhs rhs modulus : Nat) : Nat :=
  lhs * rhs % modulus

/-- `schnorr_signature`: parse the three 32-byte big-endian operands,
compute `s = r + e * d (mod curve order)` with `add_mod`/`modmul_u256`,
and re-serialize big-endian. -/
def schnorr_signature (secret_key secret_nonce challenge : List Nat) :
    List Nat :=
  let d := bytesToNatBE secret_key
  let r := bytesToNatBE secret_nonce
  let e := bytesToNatBE challenge
  let s := add_mod r (modmul_u256 e d SECP256K1_CURVE_ORDER)
    SECP256K1_CURVE_ORDER
  natToBytesBE32 s

/-! ### The sha256_sudoku guest (`zkvm/sha256_sudoku/src/main.rs`)

The guest reads `preimage (32B) ∥ chacha_nonce (12B) ∥ mask (81B) ∥
solution (81B)`, asserts solution validity, masks the solution, encrypts
the compact solution, and commits
`sha256(preimage) ∥ chacha_nonce ∥ puzzle ∥ encrypted`.
SHA-256 and ChaCha20 are abstract parameters `hash` (bytes → 32 bytes)
and `chacha` (key → nonce → bytes → bytes).  `none` models a fatal
abort (a failed `assert!` or a `panic!` inside
`mask_sudoku_solution`). -/
def sha256_sudoku_guest (hash : List Nat → List Nat)
    (chacha : List Nat → List Nat → List Nat → List Nat)
    (preimage chacha_nonce mask solution : List Nat) :
    Option (List Nat) :=
  if ¬ is_valid_sudoku_solution solution then none
  else
    match mask_sudoku_solution solution mask with
    | none => none
    | some puzzle =>
      some (hash preimage ++ chacha_nonce ++ puzzle ++
        chacha preimage chacha_nonce (compress_board solution))

/-! ### Preimage proof engine (`src/proofs/sha256_generic.rs`) -/

/-- Constant data of a `Program` implementation (`src/program.rs`):
the content-addressed program id (as 32 digest bytes), the declared
auxiliary-input length and the declared appendix length.  The ELF code
itself never matters to this layer beyond being handed to the oracle. -/
structure ProgramDesc where
  idBytes : List Nat
  aux_input_len : Nat
  appendix_len : Nat

/-- Errors surfaced by the host-side prove calls. -/
inductive ProveError
  | InputLengthMismatch
  | OracleFailure
  | JournalLengthMismatch
  deriving DecidableEq

/-- `Sha256Proof::<P>::prove_custom`: write `preimage ∥ aux_input` to the
oracle (the RISC0 `LocalProver`, an abstract parameter mapping the
private input bytes to an optional journal), then check the journal
length is `32 + P::appendix_len()`.  There is no auxiliary-input length
validation in this engine. -/
def sha256_prove_custom (oracle : List Nat → Option (List Nat))
    (P : ProgramDesc) (preimage aux_input : List Nat) :
    Except ProveError (List Nat) :=
  match oracle (preimage ++ aux_input) with
  | none => .error .OracleFailure
  | some journal =>
    if journal.length ≠ 32 + P.appendix_len then .error .JournalLengthMismatch
    else .ok journal

/-- `Sha256Proof::hash`: `journal[..32]`, panicking (`none`) when the
journal holds fewer than 32 bytes (the slice indexing
`&self.journal()[..32]` is unconditional). -/
def sha256_hash_accessor (journal : List Nat) : Option (List Nat) :=
  if journal.length < 32 then none
  else some (journal.take 32)

/-! ### sha256_sudoku application proof (`src/proofs/sha256_sudoku.rs`) -/

/-- `Sha256SudokuProof::puzzle`: `journal[32..][12..][..81]`, panicking
(`none`) when any of the three slicing steps is out of bounds, i.e. when
the journal holds fewer than 125 bytes. -/
def sha256_sudoku_puzzle (journal : List Nat) : Option (List Nat) :=
  if journal.length < 32 then none
  else if (journal.drop 32).length < 12 then none
  else if ((journal.drop 32).drop 12).length < 81 then none
  else some (((journal.drop 32).drop 12).take 81)

/-- Errors surfaced by `Sha256SudokuProof::decrypt_solution`.  In the
source all four are `anyhow` errors with distinct messages. -/
inductive DecryptError
  | SecretMismatch
  | Malleable
  | InvalidSolution
  | WrongPuzzle
  deriving DecidableEq

/-- `Sha256SudokuProof::decrypt_solution`, for a journal of the shape
produced by the constructor (32-byte hash, 12-byte nonce, 81-byte
puzzle, 36-byte encrypted compact solution): compare `hash preimage`
against the committed hash, decrypt the encrypted compact solution with
ChaCha20 keyed by the preimage and the committed nonce, decompress, and
re-validate the decoded board.  `hash` and `chacha` are the abstract
SHA-256 and ChaCha20 primitives. -/
def decrypt_solution (hash : List Nat → List Nat)
    (chacha : List Nat → List Nat → List Nat → List Nat)
    (journal preimage : List Nat) : Except DecryptError (List Nat) :=
  if hash preimage ≠ journal.take 32 then .error .SecretMismatch
  else
    let chacha_nonce := (journal.drop 32).take 12
    let encrypted := ((journal.drop 32).drop 12).drop 81
    let compact := chacha preimage chacha_nonce encrypted
    match decompress_board compact with
    | none => .error .Malleable
    | some solution =>
      if ¬ is_valid_sudoku_solution solution then .error .InvalidSolution
      else if ¬ solves_sudoku_puzzle solution
          (((journal.drop 32).drop 12).take 81) then .error .WrongPuzzle
      else .ok solution

/-! ### Discrete-log proof engine (`src/proofs/dlog_secp256k1_generic.rs`)

Points of the secp256k1 group are an abstract type `α`; the group
operations `smulG` (`s * G`), `padd` (point addition) and `pmul`
(`point * scalar`), the 33-byte point serialization `ser`, and SHA-256
are abstract parameters. -/

/-- A `Secp256k1DlogProof` record: public key, public nonce and the
RISC0 receipt.  The receipt is abstract; only its journal bytes and the
outcome of `Receipt::verify` (a parameter below) matter here. -/
structure Secp256k1DlogProof (α : Type) (ρ : Type) where
  public_key : α
  public_nonce : α
  receipt : ρ

/-- `MaybeScalar::try_from(&[u8])`: succeeds on exactly 32 bytes whose
big-endian value is below the curve order. -/
def parseMaybeScalar (bytes : List Nat) : Option Nat :=
  if bytes.length = 32 ∧ bytesToNatBE bytes < SECP256K1_CURVE_ORDER
  then some (bytesToNatBE bytes) else none

/-- `compute_challenge`: SHA-256 over
`serialize(public_nonce) ∥ serialize(public_key) ∥ program id digest`,
reduced into the scalar field (`MaybeScalar::reduce_from`). -/
def compute_challenge (hash : List Nat → List Nat) {α : Type}
    (ser : α → List Nat) (idBytes : List Nat)
    (public_nonce public_key : α) : Nat :=
  bytesToNatBE (hash (ser public_nonce ++ ser public_key ++ idBytes)) %
    SECP256K1_CURVE_ORDER

/-- Errors surfaced by `Secp256k1DlogProof::verify`.  `JournalTooShort`
models the panic of the unconditional journal slicing on a journal of
fewer than 64 bytes; `ChallengeParse` and `SignatureParse` model the
propagated `MaybeScalar::try_from` errors. -/
inductive DlogVerifyError
  | JournalTooShort
  | ChallengeParse
  | ChallengeMismatch
  | SignatureParse
  | SignatureInvalid
  | AttestationInvalid
  deriving DecidableEq

/-- `Secp256k1DlogProof::verify`: recompute the challenge from the
stored points, compare it with the scalar parsed from journal bytes
`0..32`, check the Schnorr equation `s * G == public_nonce + public_key
* challenge` with `s` parsed from journal bytes `32..64`, and finally
delegate to `Receipt::verify` (the abstract `rverify`). -/
def dlog_verify {α ρ : Type} [DecidableEq α]
    (hash : List Nat → List Nat) (ser : α → List Nat)
    (smulG : Nat → α) (padd : α → α → α) (pmul : α → Nat → α)
    (journalOf : ρ → List Nat) (rverify : ρ → Bool)
    (idBytes : List Nat) (p : Secp256k1DlogProof α ρ) :
    Except DlogVerifyError Unit :=
  let j := journalOf p.receipt
  if j.length < 64 then .error .JournalTooShort
  else
    let challenge := compute_challenge hash ser idBytes p.public_nonce
      p.public_key
    match parseMaybeScalar (j.take 32) with
    | none => .error .ChallengeParse
    | some journal_challenge =>
      if challenge ≠ journal_challenge then .error .ChallengeMismatch
      else
        match parseMaybeScalar ((j.drop 32).take 32) with
        | none => .error .SignatureParse
        | some s =>
          if smulG s ≠ padd p.public_nonce (pmul p.public_key challenge)
          then .error .SignatureInvalid
          else if rverify p.receipt then .ok ()
          else .error .AttestationInvalid

/-- `Secp256k1DlogProof::<P>::prove_custom`: validate the auxiliary
input length against `P::aux_input_len()` before anything else, then
derive the deterministic secret nonce, the public points and the
Fiat–Shamir challenge, write
`secret_key ∥ secret_nonce ∥ challenge ∥ aux_input` to the oracle, and
check the returned journal length is `64 + P::appendix_len()`.  Scalars
serialize as 32 big-endian bytes; `smulG` is `scalar * G`. -/
def dlog_prove_custom {α : Type} (hash : List Nat → List Nat)
    (ser : α → List Nat) (smulG : Nat → α)
    (oracle : List Nat → Option (List Nat)) (P : ProgramDesc)
    (secret_key : Nat) (aux_input : List Nat) :
    Except ProveError (Secp256k1DlogProof α (List Nat)) :=
  if aux_input.length ≠ P.aux_input_len then .error .InputLengthMismatch
  else
    let secret_key_bytes := natToBytesBE32 secret_key
    let secret_nonce := bytesToNatBE (hash (P.idBytes ++ secret_key_bytes ++
      aux_input ++ [115, 101, 99, 112, 50, 53, 54, 107, 49, 95, 110, 111,
        110, 99, 101])) % SECP256K1_CURVE_ORDER
    let public_key := smulG secret_key
    let public_nonce := smulG secret_nonce
    let challenge := compute_challenge hash ser P.idBytes public_nonce
      public_key
    match oracle (secret_key_bytes ++ natToBytesBE32 secret_nonce ++
      natToBytesBE32 challenge ++ aux_input) with
    | none => .error .OracleFailure
    | some journal =>
      if journal.length ≠ 64 + P.appendix_len then
        .error .JournalLengthMismatch
      else .ok ⟨public_key, public_nonce, journal⟩

/-! ### Concrete test vectors (used by witnesses and counterexamples) -/

/-- The valid sudoku solution used by the repository's own tests. -/
def testBoard : List Nat :=
  [6, 1, 4, 3, 8, 9, 2, 5, 7,
   5, 8, 3, 6, 7, 2, 4, 1, 9,
   9, 7, 2, 5, 4, 1, 8, 6, 3,
   1, 3, 9, 8, 5, 4, 6, 7, 2,
   2, 5, 8, 1, 6, 7, 9, 3, 4,
   7, 4, 6, 2, 9, 3, 5, 8, 1,
   8, 2, 7, 9, 1, 5, 3, 4, 6,
   4, 9, 5, 7, 3, 6, 1, 2, 8,
   3, 6, 1, 4, 2, 8, 7, 9, 5]

/-- A degenerate stand-in for SHA-256 used to instantiate abstract-hash
theorems on concrete inputs: every input hashes to 32 zero bytes. -/
def hashZero : List Nat → List Nat := fun _ => List.replicate 32 0

/-- A degenerate stand-in for the ChaCha20 stream cipher (the all-zero
keystream): ciphertext equals plaintext. -/
def cipherId : List Nat → List Nat → List Nat → List Nat :=
  fun _ _ msg => msg

/-- A journal for `decrypt_solution` tests: committed hash, nonce and
puzzle all zero, encrypted compact solution equal to the (identity-
encrypted) compressed `testBoard`. -/
def testJournal : List Nat :=
  List.replicate 125 0 ++ compress_board testBoard

/-- Degenerate secp256k1 instantiation for exercising the discrete-log
engine on concrete inputs: points are natural numbers, `s * G` is `s`
itself, point addition is `+`, `point * scalar` is `*`, and points
serialize to the empty byte string. -/
def natSer : Nat → List Nat := fun _ => []

/-- See `natSer`. -/
def natSmulG : Nat → Nat := fun s => s

/-- See `natSer`. -/
def natPadd : Nat → Nat → Nat := fun a b => a + b

/-- See `natSer`. -/
def natPmul : Nat → Nat → Nat := fun a c => a * c

/-- A degenerate receipt type: journal bytes paired with the outcome of
`Receipt::verify`. -/
def fstJournal : List Nat × Bool → List Nat := Prod.fst

/-- See `fstJournal`. -/
def sndVerify : List Nat × Bool → Bool := Prod.snd

/-- A concrete discrete-log proof record over the degenerate group: both
points zero, a 64-zero-byte journal, an accepting receipt. -/
def testDlogProof : Secp256k1DlogProof Nat (List Nat × Bool) :=
  ⟨0, 0, (List.replicate 64 0, true)⟩

/-! ### Helper lemmas: base-10 rows and byte chunks -/

theorem fillRow_length (k v : Nat) : (fillRow k v).length = k := by
  induction k generalizing v with
  | zero => rfl
  | succ k ih => simp [fillRow, ih]

theorem fillRow_digits_lt (k v : Nat) : ∀ d ∈ fillRow k v, d < 10 := by
  induction k generalizing v with
  | zero => simp [fillRow]
  | succ k ih =>
    intro d hd
    simp only [fillRow, List.mem_append, List.mem_singleton] at hd
    rcases hd with hd | hd
    · exact ih _ d hd
    · omega

theorem rowValNat_append (l : List Nat) (d : Nat) :
    rowValNat (l ++ [d]) = rowValNat l * 10 + d := by
  simp [rowValNat, List.foldl_append]

theorem rowValNat_fillRow (k v : Nat) (h : v < 10 ^ k) :
    rowValNat (fillRow k v) = v := by
  induction k generalizing v with
  | zero => simp [Nat.pow_zero] at h; simp [fillRow, rowValNat, h]
  | succ k ih =>
    have hdiv : v / 10 < 10 ^ k := by
      apply Nat.div_lt_of_lt_mul
      rw [Nat.pow_succ] at h
      omega
    rw [fillRow, rowValNat_append, ih _ hdiv]
    omega

theorem fillRow_rowValNat (r : List Nat) (h : ∀ d ∈ r, d < 10) :
    fillRow r.length (rowValNat r) = r := by
  induction r using List.reverseRecOn with
  | nil => rfl
  | append_singleton l a ih =>
    have ha : a < 10 := h a (by simp)
    have hl : ∀ d ∈ l, d < 10 := fun d hd => h d (by simp [hd])
    rw [List.length_append, List.length_singleton, rowValNat_append, fillRow]
    have h1 : (rowValNat l * 10 + a) / 10 = rowValNat l := by omega
    have h2 : (rowValNat l * 10 + a) % 10 = a := by omega
    rw [h1, h2, ih hl]

theorem rowValNat_lt (r : List Nat) (h : ∀ d ∈ r, d < 10) :
    rowValNat r < 10 ^ r.length := by
  induction r using List.reverseRecOn with
  | nil => simp [rowValNat]
  | append_singleton l a ih =>
    have ha : a < 10 := h a (by simp)
    have hl : ∀ d ∈ l, d < 10 := fun d hd => h d (by simp [hd])
    have := ih hl
    rw [rowValNat_append, List.length_append, List.length_singleton,
      Nat.pow_succ]
    omega

theorem rowValU32_eq_rowValNat (r : List Nat) (h : ∀ d ∈ r, d < 10)
    (hlen : r.length ≤ 9) : rowValU32 r = rowValNat r := by
  induction r using List.reverseRecOn with
  | nil => rfl
  | append_singleton l a ih =>
    have ha : a < 10 := h a (by simp)
    have hl : ∀ d ∈ l, d < 10 := fun d hd => h d (by simp [hd])
    have hlenl : l.length ≤ 9 := by
      rw [List.length_append, List.length_singleton] at hlen; omega
    have hlt : rowValNat l < 10 ^ l.length := rowValNat_lt l hl
    have hle : (10 : Nat) ^ l.length ≤ 10 ^ 8 := by
      apply Nat.pow_le_pow_right (by omega)
      rw [List.length_append, List.length_singleton] at hlen; omega
    have hbound : rowValNat l < 10 ^ 8 := lt_of_lt_of_le hlt hle
    rw [rowValU32, rowValNat, List.foldl_append, List.foldl_append]
    show (rowValU32 l * 10 + a) % 2 ^ 32 = rowValNat l * 10 + a
    rw [ih hl hlenl]
    have : rowValNat l * 10 + a < 2 ^ 32 := by
      have : (10 : Nat) ^ 8 = 100000000 := by norm_num
      omega
    exact Nat.mod_eq_of_lt this

theorem rowValU32_lt (r : List Nat) : rowValU32 r < 2 ^ 32 := by
  have aux : ∀ (l : List Nat) (acc : Nat), acc < 2 ^ 32 →
      l.foldl (fun a d => (a * 10 + d) % 2 ^ 32) acc < 2 ^ 32 := by
    intro l
    induction l with
    | nil => intro acc hacc; exact hacc
    | cons d rest ih =>
      intro acc _
      exact ih _ (Nat.mod_lt _ (by norm_num))
  exact aux r 0 (by norm_num)

theorem fromBE4_toBE4 (v : Nat) (h : v < 2 ^ 32) :
    fromBE4 (v / 2 ^ 24 % 256) (v / 2 ^ 16 % 256) (v / 2 ^ 8 % 256)
      (v % 256) = v := by
  simp only [fromBE4]
  omega

/-- Length of a `flatMap` over `List.range` with constant chunk size. -/
theorem flatMap_range_length {α : Type} (n k : Nat) (f : Nat → List α)
    (hf : ∀ i < n, (f i).length = k) :
    ((List.range n).flatMap f).length = k * n := by
  induction n with
  | zero => simp
  | succ n ih =>
    rw [List.range_succ, List.flatMap_append, List.length_append,
      ih (fun i hi => hf i (by omega))]
    simp [hf n (by omega), Nat.mul_succ]

/-- Indexing into a `flatMap` over `List.range` with constant chunk
size. -/
theorem flatMap_range_getD {α : Type} (n k : Nat) (f : Nat → List α)
    (hf : ∀ i < n, (f i).length = k) (i j : Nat) (hi : i < n) (hj : j < k)
    (d : α) : ((List.range n).flatMap f).getD (k * i + j) d = (f i).getD j d := by
  induction n with
  | zero => omega
  | succ n ih =>
    rw [List.range_succ, List.flatMap_append]
    have hlen : ((List.range n).flatMap f).length = k * n :=
      flatMap_range_length n k f (fun i hi => hf i (by omega))
    by_cases hin : i < n
    · have hidx : k * i + j < k * n := by
        calc k * i + j < k * i + k := by omega
        _ = k * (i + 1) := by ring
        _ ≤ k * n := Nat.mul_le_mul_left k (by omega)
      rw [List.getD_append _ _ _ _ (by omega)]
      exact ih (fun i hi => hf i (by omega)) hin
    · have hieq : i = n := by omega
      subst hieq
      rw [List.getD_append_right _ _ _ _ (by omega), hlen]
      have : k * i + j - k * i = j := by omega
      rw [this]
      simp only [List.flatMap_cons, List.flatMap_nil, List.append_nil]

/-- `getD` through a `drop`/`take` row extraction. -/
theorem getD_drop_take (l : List α) (m j : Nat) (hj : j < 9) (d : α) :
    ((l.drop m).take 9).getD j d = l.getD (m + j) d := by
  rw [List.getD_eq_getD_get?, List.getD_eq_getD_get?]
  rw [List.get?_eq_getElem?, List.get?_eq_getElem?]
  rw [List.getElem?_take_of_lt hj, List.getElem?_drop]

/-- The `j`-th cell written by the `for j in (0..9).rev()` loop is the
`j`-th most significant of the `k` low base-10 digits. -/
theorem fillRow_getD (k v j : Nat) (hj : j < k) (d : Nat) :
    (fillRow k v).getD j d = v / 10 ^ (k - 1 - j) % 10 := by
  induction k generalizing j v with
  | zero => omega
  | succ k ih =>
    rw [fillRow]
    by_cases hjk : j < k
    · rw [List.getD_append _ _ _ _ (by rw [fillRow_length]; omega)]
      rw [ih (v / 10) j hjk]
      have hp : (10 : Nat) ^ (k - j) = 10 * 10 ^ (k - 1 - j) := by
        rw [← pow_succ']
        congr 1
        omega
      rw [Nat.div_div_eq_div_mul, ← hp]
      have : k + 1 - 1 - j = k - j := by omega
      rw [this]
    · have hjeq : j = k := by omega
      subst hjeq
      rw [List.getD_append_right _ _ _ _ (by rw [fillRow_length])]
      rw [fillRow_length]
      simp

/-- The row condition scanned by `decompress_board`, as a plain
proposition. -/
theorem decompress_board_cond (c : List Nat) :
    ((List.range 9).all (fun i => u32At c i ≤ 999999999) = true) ↔
      ∀ i < 9, u32At c i ≤ 999999999 := by
  simp [List.all_eq_true, List.mem_range]

/-- C3: for every 36-byte input, `decompress_board` fails exactly when
some 4-byte big-endian chunk exceeds `999_999_999`; on success the board
has 81 cells and cell `9*i + j` is the `j`-th base-10 digit (from the
most significant of nine) of chunk `i`, as recovered by repeated
division by 10; and `decompress_board` rejects the all-`0xFF` input. -/
theorem decompress_board_error_spec (c : List Nat) (hc : c.length = 36) :
    (decompress_board c = none ↔ ∃ i < 9, 999999999 < u32At c i)
    ∧ (∀ b, decompress_board c = some b →
        b.length = 81 ∧ ∀ i < 9, ∀ j < 9,
          b.getD (9 * i + j) 0 = u32At c i / 10 ^ (8 - j) % 10)
    ∧ decompress_board (List.replicate 36 255) = none := by
  refine ⟨?_, ?_, by decide⟩
  · rw [decompress_board]
    by_cases h : (List.range 9).all (fun i => u32At c i ≤ 999999999) = true
    · rw [if_pos h]
      have hall := (decompress_board_cond c).mp h
      constructor
      · intro hcontra; cases hcontra
      · rintro ⟨i, hi, hgt⟩
        exact absurd (hall i hi) (by omega)
    · rw [if_neg h]
      have : ¬ ∀ i < 9, u32At c i ≤ 999999999 :=
        fun hall => h ((decompress_board_cond c).mpr hall)
      push_neg at this
      obtain ⟨i, hi, hgt⟩ := this
      exact ⟨fun _ => ⟨i, hi, by omega⟩, fun _ => rfl⟩
  · intro b hb
    rw [decompress_board] at hb
    by_cases h : (List.range 9).all (fun i => u32At c i ≤ 999999999) = true
    · rw [if_pos h, Option.some.injEq] at hb
      subst hb
      have hlen : ∀ i < 9, (fillRow 9 (u32At c i)).length = 9 :=
        fun i _ => fillRow_length 9 _
      refine ⟨by rw [flatMap_range_length 9 9 _ hlen], ?_⟩
      intro i hi j hj
      rw [flatMap_range_getD 9 9 _ hlen i j hi hj]
      rw [fillRow_getD 9 _ j (by omega)]
    · rw [if_neg h] at hb
      cases hb

/-- Witness for `decompress_board_error_spec` at the all-`0xFF` input. -/
theorem decompress_board_error_spec_witness :
    (List.replicate 36 (255 : Nat)).length = 36 ∧
    ((decompress_board (List.replicate 36 255) = none ↔
        ∃ i < 9, 999999999 < u32At (List.replicate 36 255) i)
      ∧ (∀ b, decompress_board (List.replicate 36 255) = some b →
          b.length = 81 ∧ ∀ i < 9, ∀ j < 9,
            b.getD (9 * i + j) 0 =
              u32At (List.replicate 36 255) i / 10 ^ (8 - j) % 10)
      ∧ decompress_board (List.replicate 36 255) = none) :=
  ⟨rfl, decompress_board_error_spec (List.replicate 36 255) rfl⟩

/-! ### Round-trip lemmas for the board codec -/

theorem toBE4_fromBE4 (a b c d : Nat) (ha : a < 256) (hb : b < 256)
    (hc : c < 256) (hd : d < 256) :
    toBE4 (fromBE4 a b c d) = [a, b, c, d] := by
  have h24 : (2 : Nat) ^ 24 = 16777216 := by norm_num
  have h16 : (2 : Nat) ^ 16 = 65536 := by norm_num
  have h8 : (2 : Nat) ^ 8 = 256 := by norm_num
  simp only [toBE4, fromBE4, h24, h16, h8, List.cons.injEq, and_true]
  omega

theorem compress_board_length (b : List Nat) :
    (compress_board b).length = 36 :=
  flatMap_range_length 9 4
    (fun i => toBE4 (rowValU32 ((b.drop (9 * i)).take 9))) (fun _ _ => rfl)

theorem compress_board_getD (b : List Nat) (i j : Nat) (hi : i < 9)
    (hj : j < 4) :
    (compress_board b).getD (4 * i + j) 0 =
      (toBE4 (rowValU32 ((b.drop (9 * i)).take 9))).getD j 0 := by
  rw [compress_board]
  exact flatMap_range_getD 9 4
    (fun i' => toBE4 (rowValU32 ((b.drop (9 * i')).take 9)))
    (fun _ _ => rfl) i j hi hj 0

theorem u32At_compress (b : List Nat) (i : Nat) (hi : i < 9) :
    u32At (compress_board b) i = rowValU32 ((b.drop (9 * i)).take 9) := by
  have key : ∀ j, j < 4 → (compress_board b).getD (4 * i + j) 0 =
      (toBE4 (rowValU32 ((b.drop (9 * i)).take 9))).getD j 0 :=
    fun j hj => compress_board_getD b i j hi hj
  have k0 := key 0 (by omega)
  rw [Nat.add_zero] at k0
  rw [u32At, k0, key 1 (by omega), key 2 (by omega), key 3 (by omega)]
  simp only [toBE4, List.getD_cons_zero, List.getD_cons_succ]
  exact fromBE4_toBE4 _ (rowValU32_lt _)

theorem flatMap_rows_eq (b : List Nat) (hb : b.length = 81) :
    (List.range 9).flatMap (fun i => (b.drop (9 * i)).take 9) = b := by
  have hlen : ∀ i < 9, ((b.drop (9 * i)).take 9).length = 9 := by
    intro i hi
    rw [List.length_take, List.length_drop, hb]
    omega
  apply List.ext_getElem
  · rw [flatMap_range_length 9 9 _ hlen, hb]
  · intro n h1 h2
    have hn : n < 81 := by rwa [hb] at h2
    rw [← List.getD_eq_getElem _ 0 h1, ← List.getD_eq_getElem _ 0 h2]
    have h9 : 9 * (n / 9) + n % 9 = n := by omega
    calc ((List.range 9).flatMap fun i => (b.drop (9 * i)).take 9).getD n 0
        = ((List.range 9).flatMap fun i => (b.drop (9 * i)).take 9).getD
            (9 * (n / 9) + n % 9) 0 := by rw [h9]
      _ = ((b.drop (9 * (n / 9))).take 9).getD (n % 9) 0 :=
          flatMap_range_getD 9 9 _ hlen (n / 9) (n % 9) (by omega) (by omega) 0
      _ = b.getD (9 * (n / 9) + n % 9) 0 :=
          getD_drop_take b (9 * (n / 9)) (n % 9) (by omega) 0
      _ = b.getD n 0 := by rw [h9]

theorem rowValU32_fillRow9 (v : Nat) (hv : v ≤ 999999999) :
    rowValU32 (fillRow 9 v) = v := by
  rw [rowValU32_eq_rowValNat _ (fillRow_digits_lt 9 v)
    (le_of_eq (fillRow_length 9 v))]
  refine rowValNat_fillRow 9 v ?_
  rw [show (10 : Nat) ^ 9 = 1000000000 from by norm_num]
  omega

theorem toBE4_getD_fromBE4 (c : List Nat) (hc : c.length = 36)
    (hbytes : ∀ x ∈ c, x < 256) (i j : Nat) (hi : i < 9) (hj : j < 4) :
    (toBE4 (u32At c i)).getD j 0 = c.getD (4 * i + j) 0 := by
  have hbound : ∀ m, m < 36 → c.getD m 0 < 256 := by
    intro m hm
    have hmlen : m < c.length := by omega
    rw [List.getD_eq_getElem _ 0 hmlen]
    exact hbytes _ (List.getElem_mem hmlen)
  rw [u32At, toBE4_fromBE4 _ _ _ _ (hbound _ (by omega)) (hbound _ (by omega))
    (hbound _ (by omega)) (hbound _ (by omega))]
  interval_cases j <;> simp [List.getD]

/-- C2: the compact board codec is a bijection on canonical encodings.
For every 81-cell board whose cells are all at most 9,
`decompress_board (compress_board b) = some b`; and for every 36-byte
encoding on which `decompress_board` succeeds, `compress_board` maps the
decoded board back to the original bytes. -/
theorem board_codec_bijective (b : List Nat) (hb : b.length = 81)
    (hdig : ∀ x ∈ b, x ≤ 9) :
    decompress_board (compress_board b) = some b
    ∧ ∀ c b2, c.length = 36 → (∀ x ∈ c, x < 256) →
        decompress_board c = some b2 → compress_board b2 = c := by
  constructor
  · have hrowlen : ∀ i < 9, ((b.drop (9 * i)).take 9).length = 9 := by
      intro i hi
      rw [List.length_take, List.length_drop, hb]
      omega
    have hrowdig : ∀ i, ∀ x ∈ (b.drop (9 * i)).take 9, x < 10 := by
      intro i x hx
      have hxb : x ∈ b := List.mem_of_mem_drop (List.mem_of_mem_take hx)
      have := hdig x hxb
      omega
    have hval : ∀ i < 9, u32At (compress_board b) i ≤ 999999999 := by
      intro i hi
      rw [u32At_compress b i hi, rowValU32_eq_rowValNat _ (hrowdig i)
        (le_of_eq (hrowlen i hi))]
      have hlt := rowValNat_lt _ (hrowdig i)
      rw [hrowlen i hi] at hlt
      have : (10 : Nat) ^ 9 = 1000000000 := by norm_num
      omega
    rw [decompress_board, if_pos ((decompress_board_cond _).mpr hval)]
    congr 1
    have hcongr : ∀ i ∈ List.range 9,
        fillRow 9 (u32At (compress_board b) i) = (b.drop (9 * i)).take 9 := by
      intro i hi'
      have hi : i < 9 := List.mem_range.mp hi'
      rw [u32At_compress b i hi, rowValU32_eq_rowValNat _ (hrowdig i)
        (le_of_eq (hrowlen i hi))]
      have hfr := fillRow_rowValNat _ (hrowdig i)
      rw [hrowlen i hi] at hfr
      exact hfr
    calc (List.range 9).flatMap (fun i => fillRow 9 (u32At (compress_board b) i))
        = (List.range 9).flatMap (fun i => (b.drop (9 * i)).take 9) := by
          simp only [List.flatMap]
          congr 1
          exact List.map_congr_left hcongr
      _ = b := flatMap_rows_eq b hb
  · intro c b2 hc hbytes hdec
    rw [decompress_board] at hdec
    by_cases h : (List.range 9).all (fun i => u32At c i ≤ 999999999) = true
    · rw [if_pos h, Option.some.injEq] at hdec
      subst hdec
      have hall := (decompress_board_cond c).mp h
      have hfl : ∀ i < 9, (fillRow 9 (u32At c i)).length = 9 :=
        fun i _ => fillRow_length 9 _
      have hBlen :
          ((List.range 9).flatMap fun i => fillRow 9 (u32At c i)).length = 81 :=
        flatMap_range_length 9 9 _ hfl
      have hrow : ∀ i < 9,
          ((((List.range 9).flatMap fun i' => fillRow 9 (u32At c i')).drop
            (9 * i)).take 9) = fillRow 9 (u32At c i) := by
        intro i hi
        apply List.ext_getElem
        · rw [List.length_take, List.length_drop, hBlen, fillRow_length]
          omega
        · intro j h1 h2
          have hj : j < 9 := by rwa [fillRow_length] at h2
          rw [← List.getD_eq_getElem _ 0 h1, ← List.getD_eq_getElem _ 0 h2]
          rw [getD_drop_take _ (9 * i) j hj 0]
          exact flatMap_range_getD 9 9 _ hfl i j hi hj 0
      apply List.ext_getElem
      · rw [compress_board_length, hc]
      · intro n h1 h2
        have hn : n < 36 := by rwa [hc] at h2
        rw [← List.getD_eq_getElem _ 0 h1, ← List.getD_eq_getElem _ 0 h2]
        have h4 : 4 * (n / 4) + n % 4 = n := by omega
        have hi : n / 4 < 9 := by omega
        have hj : n % 4 < 4 := by omega
        calc (compress_board
              ((List.range 9).flatMap fun i => fillRow 9 (u32At c i))).getD n 0
            = (compress_board
              ((List.range 9).flatMap fun i => fillRow 9 (u32At c i))).getD
                (4 * (n / 4) + n % 4) 0 := by rw [h4]
          _ = (toBE4 (rowValU32
              (((((List.range 9).flatMap fun i => fillRow 9 (u32At c i))).drop
                (9 * (n / 4))).take 9))).getD (n % 4) 0 :=
              compress_board_getD _ (n / 4) (n % 4) hi hj
          _ = (toBE4 (u32At c (n / 4))).getD (n % 4) 0 := by
              rw [hrow (n / 4) hi, rowValU32_fillRow9 _ (hall (n / 4) hi)]
          _ = c.getD (4 * (n / 4) + n % 4) 0 :=
              toBE4_getD_fromBE4 c hc hbytes (n / 4) (n % 4) hi hj
          _ = c.getD n 0 := by rw [h4]
    · rw [if_neg h] at hdec
      cases hdec

/-- Witness for `board_codec_bijective` at the repository's test board. -/
theorem board_codec_bijective_witness :
    testBoard.length = 81 ∧ (∀ x ∈ testBoard, x ≤ 9) ∧
    (decompress_board (compress_board testBoard) = some testBoard
      ∧ ∀ c b2, c.length = 36 → (∀ x ∈ c, x < 256) →
          decompress_board c = some b2 → compress_board b2 = c) :=
  ⟨by decide, by decide, board_codec_bijective testBoard (by decide) (by decide)⟩

/-! ### C6: the Schnorr signature scalar -/

/-- C6: for 32-byte big-endian operands with the secret nonce below the
secp256k1 curve order, `schnorr_signature` computes the big-endian
encoding of `secret_nonce + challenge * secret_key` modulo the curve
order. -/
theorem schnorr_signature_spec (secret_key secret_nonce challenge : List Nat)
    (hk : secret_key.length = 32) (hn : secret_nonce.length = 32)
    (hc : challenge.length = 32)
    (hr : bytesToNatBE secret_nonce < SECP256K1_CURVE_ORDER) :
    schnorr_signature secret_key secret_nonce challenge =
      natToBytesBE32 ((bytesToNatBE secret_nonce +
        bytesToNatBE challenge * bytesToNatBE secret_key) %
        SECP256K1_CURVE_ORDER) := by
  unfold schnorr_signature add_mod modmul_u256
  simp only [SECP256K1_CURVE_ORDER] at hr ⊢
  congr 1
  split <;> omega

/-- Witness for `schnorr_signature_spec` at all-zero operands. -/
theorem schnorr_signature_spec_witness :
    (List.replicate 32 (0 : Nat)).length = 32 ∧
    bytesToNatBE (List.replicate 32 0) < SECP256K1_CURVE_ORDER ∧
    schnorr_signature (List.replicate 32 0) (List.replicate 32 0)
        (List.replicate 32 0) =
      natToBytesBE32 ((bytesToNatBE (List.replicate 32 0) +
        bytesToNatBE (List.replicate 32 0) *
          bytesToNatBE (List.replicate 32 0)) % SECP256K1_CURVE_ORDER) :=
  ⟨rfl, by decide,
    schnorr_signature_spec _ _ _ rfl rfl rfl (by decide)⟩

/-! ### C7: correctness of the seen-array scan -/

/-- The `seen`-array scan succeeds exactly when all digits are in
`1..=9`, no digit repeats, and no digit's flag was set beforehand. -/
theorem check_group_iff (cells : List Nat) (seen : Nat → Bool) :
    check_group cells seen = true ↔
      (∀ d ∈ cells, 1 ≤ d ∧ d ≤ 9) ∧ cells.Nodup ∧
        ∀ d ∈ cells, seen (d - 1) = false := by
  induction cells generalizing seen with
  | nil => simp [check_group]
  | cons d rest ih =>
    cases hcvd : check_valid_digit d seen with
    | none =>
      have hfalse : check_group (d :: rest) seen = false := by
        rw [check_group, hcvd]
      rw [hfalse]
      rw [check_valid_digit] at hcvd
      by_cases hrange : d < 1 ∨ 9 < d
      · constructor
        · intro h; cases h
        · rintro ⟨h1, -, -⟩
          have := h1 d (List.mem_cons_self d rest)
          omega
      · rw [if_neg hrange] at hcvd
        by_cases hseen : seen (d - 1) = true
        · constructor
          · intro h; cases h
          · rintro ⟨-, -, h3⟩
            have := h3 d (List.mem_cons_self d rest)
            rw [this] at hseen
            cases hseen
        · rw [if_neg hseen] at hcvd
          cases hcvd
    | some seen2 =>
      have hstep : check_group (d :: rest) seen = check_group rest seen2 := by
        rw [check_group, hcvd]
      rw [hstep, ih seen2]
      rw [check_valid_digit] at hcvd
      by_cases hrange : d < 1 ∨ 9 < d
      · rw [if_pos hrange] at hcvd; cases hcvd
      rw [if_neg hrange] at hcvd
      push_neg at hrange
      by_cases hseen : seen (d - 1) = true
      · rw [if_pos hseen] at hcvd; cases hcvd
      rw [if_neg hseen] at hcvd
      rw [Bool.not_eq_true] at hseen
      have hseen2 : seen2 = fun j => if j = d - 1 then true else seen j := by
        injection hcvd with h; exact h.symm
      subst hseen2
      constructor
      · rintro ⟨hr, hnd, hs⟩
        refine ⟨?_, ?_, ?_⟩
        · intro x hx
          rcases List.mem_cons.mp hx with hxd | hxr
          · omega
          · exact hr x hxr
        · rw [List.nodup_cons]
          refine ⟨fun hdr => ?_, hnd⟩
          have := hs d hdr
          simp at this
        · intro x hx
          rcases List.mem_cons.mp hx with hxd | hxr
          · rw [hxd]; exact hseen
          · have := hs x hxr
            simp only [] at this
            by_cases hxeq : x - 1 = d - 1
            · rw [if_pos hxeq] at this; cases this
            · rwa [if_neg hxeq] at this
      · rintro ⟨hr, hnd, hs⟩
        refine ⟨fun x hx => hr x (List.mem_cons_of_mem d hx),
          (List.nodup_cons.mp hnd).2, ?_⟩
        intro x hx
        have hxd : x ≠ d := by
          intro h
          exact (List.nodup_cons.mp hnd).1 (h ▸ hx)
        have hx9 := hr x (List.mem_cons_of_mem d hx)
        have hne : x - 1 ≠ d - 1 := by omega
        simp only []
        rw [if_neg hne]
        exact hs x (List.mem_cons_of_mem d hx)

/-- A 9-cell group passes the scan exactly when it is a permutation of
`[1, 2, ..., 9]`. -/
theorem check_group_perm (cells : List Nat) (hlen : cells.length = 9) :
    check_group cells (fun _ => false) = true ↔
      List.Perm cells [1, 2, 3, 4, 5, 6, 7, 8, 9] := by
  rw [check_group_iff]
  constructor
  · rintro ⟨hr, hnd, -⟩
    have hsub : cells ⊆ [1, 2, 3, 4, 5, 6, 7, 8, 9] := by
      intro x hx
      have := hr x hx
      simp only [List.mem_cons, List.not_mem_nil, or_false]
      omega
    exact (List.subperm_of_subset hnd hsub).perm_of_length_le (by simp [hlen])
  · intro hp
    refine ⟨?_, (hp.nodup_iff).mpr (by decide), fun _ _ => rfl⟩
    intro x hx
    have := hp.subset hx
    simp only [List.mem_cons, List.not_mem_nil, or_false] at this
    omega

theorem rowCells_length (b : List Nat) (g : Nat) : (rowCells b g).length = 9 := by
  simp [rowCells]

theorem colCells_length (b : List Nat) (g : Nat) : (colCells b g).length = 9 := by
  simp [colCells]

theorem gridCells_length (b : List Nat) (g : Nat) :
    (gridCells b g).length = 9 := by
  simp [gridCells]

/-- C7: `is_valid_sudoku_solution` returns `true` exactly when each of
the 9 rows, 9 columns and 9 three-by-three subgrids is a permutation of
the digits 1 through 9 (no repeats, no out-of-range value). -/
theorem is_valid_sudoku_solution_spec (b : List Nat) (hb : b.length = 81) :
    is_valid_sudoku_solution b = true ↔
      ∀ g < 9, List.Perm (rowCells b g) [1, 2, 3, 4, 5, 6, 7, 8, 9]
        ∧ List.Perm (colCells b g) [1, 2, 3, 4, 5, 6, 7, 8, 9]
        ∧ List.Perm (gridCells b g) [1, 2, 3, 4, 5, 6, 7, 8, 9] := by
  rw [is_valid_sudoku_solution]
  simp only [Bool.and_eq_true, List.all_eq_true, List.mem_range]
  constructor
  · rintro ⟨⟨hrow, hcol⟩, hgrid⟩
    intro g hg
    exact ⟨(check_group_perm _ (rowCells_length b g)).mp (hrow g hg),
      (check_group_perm _ (colCells_length b g)).mp (hcol g hg),
      (check_group_perm _ (gridCells_length b g)).mp (hgrid g hg)⟩
  · intro h
    refine ⟨⟨fun g hg => ?_, fun g hg => ?_⟩, fun g hg => ?_⟩
    · exact (check_group_perm _ (rowCells_length b g)).mpr (h g hg).1
    · exact (check_group_perm _ (colCells_length b g)).mpr (h g hg).2.1
    · exact (check_group_perm _ (gridCells_length b g)).mpr (h g hg).2.2

/-- Witness for `is_valid_sudoku_solution_spec` at the test board. -/
theorem is_valid_sudoku_solution_spec_witness :
    testBoard.length = 81 ∧
    (is_valid_sudoku_solution testBoard = true ↔
      ∀ g < 9, List.Perm (rowCells testBoard g) [1, 2, 3, 4, 5, 6, 7, 8, 9]
        ∧ List.Perm (colCells testBoard g) [1, 2, 3, 4, 5, 6, 7, 8, 9]
        ∧ List.Perm (gridCells testBoard g) [1, 2, 3, 4, 5, 6, 7, 8, 9]) :=
  ⟨by decide, is_valid_sudoku_solution_spec testBoard (by decide)⟩

/-! ### C8: masking a solution into a puzzle -/

theorem maskCells_some (s m : List Nat) (hlen : s.length = m.length)
    (hbin : ∀ x ∈ m, x = 0 ∨ x = 1) :
    maskCells s m =
      some ((s.zip m).map (fun p => if p.2 = 0 then 0 else p.1)) := by
  induction s generalizing m with
  | nil =>
    have : m = [] := List.length_eq_zero.mp hlen.symm
    subst this
    rfl
  | cons a ss ih =>
    cases m with
    | nil => cases hlen
    | cons mm ms =>
      have hlen2 : ss.length = ms.length := by
        simpa using hlen
      have hbin2 : ∀ x ∈ ms, x = 0 ∨ x = 1 :=
        fun x hx => hbin x (List.mem_cons_of_mem mm hx)
      rcases hbin mm (List.mem_cons_self mm ms) with h0 | h1
      · subst h0
        rw [maskCells, if_pos rfl, ih ms hlen2 hbin2]
        simp
      · subst h1
        rw [maskCells, if_neg (by omega), if_pos rfl, ih ms hlen2 hbin2]
        simp

theorem maskCells_none (s m : List Nat) (hlen : s.length = m.length)
    (hbad : ∃ x ∈ m, x ≠ 0 ∧ x ≠ 1) : maskCells s m = none := by
  induction s generalizing m with
  | nil =>
    have : m = [] := List.length_eq_zero.mp hlen.symm
    subst this
    obtain ⟨x, hx, -⟩ := hbad
    cases hx
  | cons a ss ih =>
    cases m with
    | nil => cases hlen
    | cons mm ms =>
      have hlen2 : ss.length = ms.length := by simpa using hlen
      by_cases h0 : mm = 0
      · subst h0
        obtain ⟨x, hx, hxne⟩ := hbad
        rcases List.mem_cons.mp hx with hxm | hxr
        · omega
        · rw [maskCells, if_pos rfl, ih ms hlen2 ⟨x, hxr, hxne⟩]
          rfl
      · by_cases h1 : mm = 1
        · subst h1
          obtain ⟨x, hx, hxne⟩ := hbad
          rcases List.mem_cons.mp hx with hxm | hxr
          · omega
          · rw [maskCells, if_neg (by omega), if_pos rfl,
              ih ms hlen2 ⟨x, hxr, hxne⟩]
            rfl
        · rw [maskCells, if_neg h0, if_neg h1]

/-- C8: on an all-binary 81-byte mask, `mask_sudoku_solution` returns the
board whose cell `i` is `0` where the mask is `0` and the solution's
cell where the mask is `1`; on any mask with a byte outside `{0, 1}` it
panics (modelled as `none`). -/
theorem mask_sudoku_solution_spec (s m : List Nat) (hs : s.length = 81)
    (hm : m.length = 81) :
    ((∀ x ∈ m, x = 0 ∨ x = 1) →
      ∃ p, mask_sudoku_solution s m = some p ∧ p.length = 81 ∧
        ∀ i < 81, p.getD i 0 = if m.getD i 0 = 0 then 0 else s.getD i 0)
    ∧ ((∃ x ∈ m, x ≠ 0 ∧ x ≠ 1) → mask_sudoku_solution s m = none) := by
  constructor
  · intro hbin
    rw [mask_sudoku_solution, maskCells_some s m (by omega) hbin]
    refine ⟨_, rfl, ?_, ?_⟩
    · simp [hs, hm]
    · intro i hi
      have hziplen : ((s.zip m).map
          (fun p => if p.2 = 0 then 0 else p.1)).length = 81 := by
        simp [hs, hm]
      have hilt : i < ((s.zip m).map
          (fun p => if p.2 = 0 then 0 else p.1)).length := by omega
      rw [List.getD_eq_getElem _ 0 hilt, List.getElem_map, List.getElem_zip]
      rw [List.getD_eq_getElem _ 0 (by omega : i < m.length),
        List.getD_eq_getElem _ 0 (by omega : i < s.length)]
  · intro hbad
    exact maskCells_none s m (by omega) hbad

/-- Witness for `mask_sudoku_solution_spec`: the test board with the
all-ones mask. -/
theorem mask_sudoku_solution_spec_witness :
    testBoard.length = 81 ∧ (List.replicate 81 (1 : Nat)).length = 81 ∧
    (((∀ x ∈ List.replicate 81 (1 : Nat), x = 0 ∨ x = 1) →
      ∃ p, mask_sudoku_solution testBoard (List.replicate 81 1) = some p ∧
        p.length = 81 ∧ ∀ i < 81, p.getD i 0 =
          if (List.replicate 81 (1 : Nat)).getD i 0 = 0 then 0
          else testBoard.getD i 0)
    ∧ ((∃ x ∈ List.replicate 81 (1 : Nat), x ≠ 0 ∧ x ≠ 1) →
        mask_sudoku_solution testBoard (List.replicate 81 1) = none)) :=
  ⟨by decide, by decide,
    mask_sudoku_solution_spec testBoard (List.replicate 81 1)
      (by decide) (by decide)⟩

/-! ### C4: the sha256_sudoku guest -/

/-- C4 counterexample: with a valid solution but a mask byte outside
`{0, 1}`, the guest aborts (the `panic!` inside `mask_sudoku_solution`)
even though `is_valid_sudoku_solution` holds, so the journal promised by
the claim for every valid solution is not produced. -/
theorem sha256_sudoku_guest_counterexample :
    sha256_sudoku_guest hashZero cipherId (List.replicate 32 0)
      (List.replicate 12 0) (List.replicate 81 2) testBoard = none
    ∧ is_valid_sudoku_solution testBoard = true := by
  decide

/-- C4 (amended): the guest aborts when the solution is invalid, and
also when the mask holds a byte outside `{0, 1}`; when the solution is
valid and the mask is binary, the committed journal is exactly
`sha256(preimage) ∥ cipher-nonce ∥ mask_sudoku_solution(solution, mask)
∥ ChaCha20(preimage, cipher-nonce, compress_board(solution))`. -/
theorem sha256_sudoku_guest_spec (hash : List Nat → List Nat)
    (chacha : List Nat → List Nat → List Nat → List Nat)
    (preimage nonce mask solution : List Nat)
    (hp : preimage.length = 32) (hn : nonce.length = 12)
    (hm : mask.length = 81) (hs : solution.length = 81) :
    (is_valid_sudoku_solution solution = false →
      sha256_sudoku_guest hash chacha preimage nonce mask solution = none)
    ∧ (is_valid_sudoku_solution solution = true →
        (∀ x ∈ mask, x = 0 ∨ x = 1) →
        ∃ puzzle, mask_sudoku_solution solution mask = some puzzle ∧
          sha256_sudoku_guest hash chacha preimage nonce mask solution =
            some (hash preimage ++ nonce ++ puzzle ++
              chacha preimage nonce (compress_board solution)))
    ∧ (is_valid_sudoku_solution solution = true →
        (∃ x ∈ mask, x ≠ 0 ∧ x ≠ 1) →
        sha256_sudoku_guest hash chacha preimage nonce mask solution =
          none) := by
  refine ⟨?_, ?_, ?_⟩
  · intro hv
    rw [sha256_sudoku_guest, if_pos (by simp [hv])]
  · intro hv hbin
    have hmask : mask_sudoku_solution solution mask =
        some ((solution.zip mask).map (fun p => if p.2 = 0 then 0 else p.1)) := by
      rw [mask_sudoku_solution]
      exact maskCells_some solution mask (by omega) hbin
    refine ⟨_, hmask, ?_⟩
    rw [sha256_sudoku_guest, if_neg (by simp [hv]), hmask]
  · intro hv hbad
    have hmask : mask_sudoku_solution solution mask = none := by
      rw [mask_sudoku_solution]
      exact maskCells_none solution mask (by omega) hbad
    rw [sha256_sudoku_guest, if_neg (by simp [hv]), hmask]

/-- Witness for `sha256_sudoku_guest_spec` at the test board with the
all-ones mask and degenerate hash/cipher. -/
theorem sha256_sudoku_guest_spec_witness :
    (List.replicate 32 (0 : Nat)).length = 32 ∧
    (List.replicate 12 (0 : Nat)).length = 12 ∧
    (List.replicate 81 (1 : Nat)).length = 81 ∧ testBoard.length = 81 ∧
    ((is_valid_sudoku_solution testBoard = false →
      sha256_sudoku_guest hashZero cipherId (List.replicate 32 0)
        (List.replicate 12 0) (List.replicate 81 1) testBoard = none)
    ∧ (is_valid_sudoku_solution testBoard = true →
        (∀ x ∈ List.replicate 81 (1 : Nat), x = 0 ∨ x = 1) →
        ∃ puzzle, mask_sudoku_solution testBoard (List.replicate 81 1) =
            some puzzle ∧
          sha256_sudoku_guest hashZero cipherId (List.replicate 32 0)
            (List.replicate 12 0) (List.replicate 81 1) testBoard =
            some (hashZero (List.replicate 32 0) ++ List.replicate 12 0 ++
              puzzle ++ cipherId (List.replicate 32 0) (List.replicate 12 0)
                (compress_board testBoard)))
    ∧ (is_valid_sudoku_solution testBoard = true →
        (∃ x ∈ List.replicate 81 (1 : Nat), x ≠ 0 ∧ x ≠ 1) →
        sha256_sudoku_guest hashZero cipherId (List.replicate 32 0)
          (List.replicate 12 0) (List.replicate 81 1) testBoard = none)) :=
  ⟨rfl, rfl, rfl, by decide,
    sha256_sudoku_guest_spec hashZero cipherId (List.replicate 32 0)
      (List.replicate 12 0) (List.replicate 81 1) testBoard
      rfl rfl rfl (by decide)⟩

/-! ### C5: decrypting the contingent solution -/

/-- C5 counterexample: the encrypted compact solution lives at journal
bytes `125..161`, not `44..80`.  On a journal whose bytes `44..80` are
all zero (decoding, under the identity cipher, to the all-zero board,
which is not a valid solution) but whose bytes `125..161` hold the
compressed test board, `decrypt_solution` succeeds — where the claim,
reading the ciphertext at bytes `44..80`, predicts a failure. -/
theorem decrypt_solution_counterexample :
    decrypt_solution hashZero cipherId testJournal (List.replicate 32 0) =
      .ok testBoard
    ∧ hashZero (List.replicate 32 0) = testJournal.take 32
    ∧ decompress_board (cipherId (List.replicate 32 0)
        ((testJournal.drop 32).take 12) ((testJournal.drop 44).take 36)) =
        some (List.replicate 81 0)
    ∧ is_valid_sudoku_solution (List.replicate 81 0) = false :=
  ⟨rfl, rfl, by decide, by decide⟩

/-- C5 (amended): for a 161-byte journal, `decrypt_solution` fails with
`SecretMismatch` when the hash of the preimage differs from journal
bytes `0..32`; when it matches, it decrypts journal bytes `125..161`
with the cipher keyed by the preimage and the nonce at bytes `32..44`,
fails with the decompression (`Malleable`) error on a non-canonical
compact board, fails with `InvalidSolution` / `WrongPuzzle` when the
decoded board is invalid or does not solve the committed puzzle (bytes
`44..125`), and otherwise returns the decoded solution. -/
theorem decrypt_solution_spec (hash : List Nat → List Nat)
    (chacha : List Nat → List Nat → List Nat → List Nat)
    (journal preimage : List Nat) (hlen : journal.length = 161) :
    (hash preimage ≠ journal.take 32 →
      decrypt_solution hash chacha journal preimage =
        .error .SecretMismatch)
    ∧ (hash preimage = journal.take 32 →
        (decompress_board (chacha preimage ((journal.drop 32).take 12)
            ((journal.drop 125).take 36)) = none →
          decrypt_solution hash chacha journal preimage = .error .Malleable)
        ∧ ∀ sol, decompress_board (chacha preimage
            ((journal.drop 32).take 12) ((journal.drop 125).take 36)) =
              some sol →
            (is_valid_sudoku_solution sol = false →
              decrypt_solution hash chacha journal preimage =
                .error .InvalidSolution)
            ∧ (is_valid_sudoku_solution sol = true →
                solves_sudoku_puzzle sol ((journal.drop 44).take 81) =
                  false →
                decrypt_solution hash chacha journal preimage =
                  .error .WrongPuzzle)
            ∧ (is_valid_sudoku_solution sol = true →
                solves_sudoku_puzzle sol ((journal.drop 44).take 81) =
                  true →
                decrypt_solution hash chacha journal preimage = .ok sol)) := by
  have hdd : (journal.drop 32).drop 12 = journal.drop 44 := by
    rw [List.drop_drop]
  have henc : ((journal.drop 32).drop 12).drop 81 =
      (journal.drop 125).take 36 := by
    rw [hdd, List.drop_drop]
    exact (List.take_of_length_le (by simp [hlen])).symm
  have hpuz : ((journal.drop 32).drop 12).take 81 =
      (journal.drop 44).take 81 := by rw [hdd]
  constructor
  · intro hne
    rw [decrypt_solution, if_pos hne]
  · intro heq
    have hifneg : ¬ hash preimage ≠ journal.take 32 := by simpa using heq
    constructor
    · intro hdec
      simp only [decrypt_solution, if_neg hifneg, henc, hdec]
    · intro sol hdec
      refine ⟨?_, ?_, ?_⟩
      · intro hv
        simp only [decrypt_solution, if_neg hifneg, henc, hdec, hv]
        simp
      · intro hv hsp
        simp only [decrypt_solution, if_neg hifneg, henc, hdec, hv, hpuz,
          hsp]
        simp
      · intro hv hsp
        simp only [decrypt_solution, if_neg hifneg, henc, hdec, hv, hpuz,
          hsp]
        simp

/-- Witness for `decrypt_solution_spec` at the concrete test journal. -/
theorem decrypt_solution_spec_witness :
    testJournal.length = 161 ∧
    ((hashZero (List.replicate 32 0) ≠ testJournal.take 32 →
      decrypt_solution hashZero cipherId testJournal (List.replicate 32 0) =
        .error .SecretMismatch)
    ∧ (hashZero (List.replicate 32 0) = testJournal.take 32 →
        (decompress_board (cipherId (List.replicate 32 0)
            ((testJournal.drop 32).take 12) ((testJournal.drop 125).take 36)) =
              none →
          decrypt_solution hashZero cipherId testJournal
            (List.replicate 32 0) = .error .Malleable)
        ∧ ∀ sol, decompress_board (cipherId (List.replicate 32 0)
            ((testJournal.drop 32).take 12) ((testJournal.drop 125).take 36)) =
              some sol →
            (is_valid_sudoku_solution sol = false →
              decrypt_solution hashZero cipherId testJournal
                (List.replicate 32 0) = .error .InvalidSolution)
            ∧ (is_valid_sudoku_solution sol = true →
                solves_sudoku_puzzle sol ((testJournal.drop 44).take 81) =
                  false →
                decrypt_solution hashZero cipherId testJournal
                  (List.replicate 32 0) = .error .WrongPuzzle)
            ∧ (is_valid_sudoku_solution sol = true →
                solves_sudoku_puzzle sol ((testJournal.drop 44).take 81) =
                  true →
                decrypt_solution hashZero cipherId testJournal
                  (List.replicate 32 0) = .ok sol))) :=
  ⟨by decide,
    decrypt_solution_spec hashZero cipherId testJournal
      (List.replicate 32 0) (by decide)⟩

/-! ### C1: discrete-log proof verification -/

/-- C1: for every discrete-log proof record with a journal of at least
64 bytes, `verify` succeeds exactly when (1) the scalar parsed from
journal bytes `0..32` equals the recomputed challenge
`Hash(ser(public_nonce) ∥ ser(public_key) ∥ program_id)` reduced into
the scalar field, (2) the scalar `s` parsed from journal bytes `32..64`
satisfies `s*G = public_nonce + public_key*challenge`, and (3) the
oracle's receipt verification accepts; and the three checks run in this
order, failing with `ChallengeMismatch`, `SignatureInvalid` and
`AttestationInvalid` respectively. -/
theorem dlog_verify_spec {α ρ : Type} [DecidableEq α]
    (hash : List Nat → List Nat) (ser : α → List Nat)
    (smulG : Nat → α) (padd : α → α → α) (pmul : α → Nat → α)
    (journalOf : ρ → List Nat) (rverify : ρ → Bool)
    (idBytes : List Nat) (p : Secp256k1DlogProof α ρ)
    (hlen : 64 ≤ (journalOf p.receipt).length) :
    (dlog_verify hash ser smulG padd pmul journalOf rverify idBytes p =
        .ok () ↔
      parseMaybeScalar ((journalOf p.receipt).take 32) =
          some (compute_challenge hash ser idBytes p.public_nonce
            p.public_key)
        ∧ (∃ s, parseMaybeScalar (((journalOf p.receipt).drop 32).take 32) =
              some s
            ∧ smulG s = padd p.public_nonce (pmul p.public_key
                (compute_challenge hash ser idBytes p.public_nonce
                  p.public_key)))
        ∧ rverify p.receipt = true)
    ∧ (∀ jc, parseMaybeScalar ((journalOf p.receipt).take 32) = some jc →
        compute_challenge hash ser idBytes p.public_nonce p.public_key ≠
          jc →
        dlog_verify hash ser smulG padd pmul journalOf rverify idBytes p =
          .error .ChallengeMismatch)
    ∧ (∀ s, parseMaybeScalar ((journalOf p.receipt).take 32) =
          some (compute_challenge hash ser idBytes p.public_nonce
            p.public_key) →
        parseMaybeScalar (((journalOf p.receipt).drop 32).take 32) =
          some s →
        smulG s ≠ padd p.public_nonce (pmul p.public_key
          (compute_challenge hash ser idBytes p.public_nonce
            p.public_key)) →
        dlog_verify hash ser smulG padd pmul journalOf rverify idBytes p =
          .error .SignatureInvalid)
    ∧ (∀ s, parseMaybeScalar ((journalOf p.receipt).take 32) =
          some (compute_challenge hash ser idBytes p.public_nonce
            p.public_key) →
        parseMaybeScalar (((journalOf p.receipt).drop 32).take 32) =
          some s →
        smulG s = padd p.public_nonce (pmul p.public_key
          (compute_challenge hash ser idBytes p.public_nonce
            p.public_key)) →
        rverify p.receipt = false →
        dlog_verify hash ser smulG padd pmul journalOf rverify idBytes p =
          .error .AttestationInvalid) := by
  have hnotlt : ¬ (journalOf p.receipt).length < 64 := by omega
  refine ⟨?_, ?_, ?_, ?_⟩
  · simp only [dlog_verify, if_neg hnotlt]
    split
    · rename_i hparse
      rw [hparse]
      simp
    · rename_i jch hparse
      rw [hparse]
      by_cases hje : compute_challenge hash ser idBytes p.public_nonce
          p.public_key ≠ jch
      · rw [if_pos hje]
        simp only [Option.some.injEq]
        constructor
        · intro h; cases h
        · rintro ⟨h1, -, -⟩
          exact absurd h1.symm hje
      · rw [if_neg hje]
        push_neg at hje
        subst hje
        split
        · rename_i hsig
          rw [hsig]
          simp
        · rename_i s hsig
          rw [hsig]
          by_cases heq : smulG s = padd p.public_nonce (pmul p.public_key
              (compute_challenge hash ser idBytes p.public_nonce
                p.public_key))
          · rw [if_neg (by simpa using heq)]
            by_cases hrv : rverify p.receipt = true
            · rw [if_pos hrv]
              simp [heq, hrv]
            · rw [if_neg hrv]
              simp only [Bool.not_eq_true] at hrv
              simp [hrv]
          · rw [if_pos heq]
            simp only [Option.some.injEq]
            constructor
            · intro h; cases h
            · rintro ⟨-, ⟨s2, hs2, heq2⟩, -⟩
              subst hs2
              exact absurd heq2 heq
  · intro jc hparse hne
    simp only [dlog_verify, if_neg hnotlt]
    rw [hparse]
    simp [hne]
  · intro s hparse hsig hne
    simp only [dlog_verify, if_neg hnotlt]
    rw [hparse, hsig]
    simp [hne]
  · intro s hparse hsig heq hrv
    simp only [dlog_verify, if_neg hnotlt]
    rw [hparse, hsig]
    simp [heq, hrv]

/-- Witness for `dlog_verify_spec` at the degenerate group
instantiation with an all-zero 64-byte journal. -/
theorem dlog_verify_spec_witness :
    64 ≤ (fstJournal testDlogProof.receipt).length ∧
    ((dlog_verify hashZero natSer natSmulG natPadd natPmul fstJournal
        sndVerify [] testDlogProof = .ok () ↔
      parseMaybeScalar ((fstJournal testDlogProof.receipt).take 32) =
          some (compute_challenge hashZero natSer []
            testDlogProof.public_nonce testDlogProof.public_key)
        ∧ (∃ s, parseMaybeScalar
              (((fstJournal testDlogProof.receipt).drop 32).take 32) =
              some s
            ∧ natSmulG s = natPadd testDlogProof.public_nonce
                (natPmul testDlogProof.public_key
                  (compute_challenge hashZero natSer []
                    testDlogProof.public_nonce testDlogProof.public_key)))
        ∧ sndVerify testDlogProof.receipt = true)
    ∧ (∀ jc, parseMaybeScalar ((fstJournal testDlogProof.receipt).take 32) =
          some jc →
        compute_challenge hashZero natSer [] testDlogProof.public_nonce
          testDlogProof.public_key ≠ jc →
        dlog_verify hashZero natSer natSmulG natPadd natPmul fstJournal
          sndVerify [] testDlogProof = .error .ChallengeMismatch)
    ∧ (∀ s, parseMaybeScalar ((fstJournal testDlogProof.receipt).take 32) =
          some (compute_challenge hashZero natSer []
            testDlogProof.public_nonce testDlogProof.public_key) →
        parseMaybeScalar
          (((fstJournal testDlogProof.receipt).drop 32).take 32) = some s →
        natSmulG s ≠ natPadd testDlogProof.public_nonce
          (natPmul testDlogProof.public_key
            (compute_challenge hashZero natSer []
              testDlogProof.public_nonce testDlogProof.public_key)) →
        dlog_verify hashZero natSer natSmulG natPadd natPmul fstJournal
          sndVerify [] testDlogProof = .error .SignatureInvalid)
    ∧ (∀ s, parseMaybeScalar ((fstJournal testDlogProof.receipt).take 32) =
          some (compute_challenge hashZero natSer []
            testDlogProof.public_nonce testDlogProof.public_key) →
        parseMaybeScalar
          (((fstJournal testDlogProof.receipt).drop 32).take 32) = some s →
        natSmulG s = natPadd testDlogProof.public_nonce
          (natPmul testDlogProof.public_key
            (compute_challenge hashZero natSer []
              testDlogProof.public_nonce testDlogProof.public_key)) →
        sndVerify testDlogProof.receipt = false →
        dlog_verify hashZero natSer natSmulG natPadd natPmul fstJournal
          sndVerify [] testDlogProof = .error .AttestationInvalid)) :=
  ⟨by decide,
    dlog_verify_spec hashZero natSer natSmulG natPadd natPmul fstJournal
      sndVerify [] testDlogProof (by decide)⟩

/-! ### C9: auxiliary-input length validation in the two engines -/

/-- C9 counterexample: the preimage engine performs no auxiliary-input
length validation.  With a program descriptor declaring
`aux_input_len = 174` (the sha256_sudoku value) and an empty auxiliary
input, `Sha256Proof::prove_custom` invokes the oracle and succeeds
rather than failing with `InputLengthMismatch`. -/
theorem sha256_prove_custom_counterexample :
    sha256_prove_custom (fun _ => some (List.replicate 161 0))
        ⟨List.replicate 32 0, 174, 129⟩ (List.replicate 32 0) [] =
      .ok (List.replicate 161 0)
    ∧ ([] : List Nat).length ≠ (174 : Nat) :=
  ⟨rfl, by decide⟩

/-- C9 (amended): only the discrete-log engine validates the
auxiliary-input length before invoking the oracle — for every oracle it
fails with `InputLengthMismatch` on a mismatched length.  The preimage
engine performs no such validation: it never reports
`InputLengthMismatch`, for any preimage. -/
theorem prove_custom_input_length_spec {α : Type}
    (hash : List Nat → List Nat) (ser : α → List Nat) (smulG : Nat → α)
    (oracle : List Nat → Option (List Nat)) (P : ProgramDesc)
    (secret_key : Nat) (aux_input : List Nat)
    (h : aux_input.length ≠ P.aux_input_len) :
    dlog_prove_custom hash ser smulG oracle P secret_key aux_input =
      .error .InputLengthMismatch
    ∧ ∀ preimage, sha256_prove_custom oracle P preimage aux_input ≠
        .error .InputLengthMismatch := by
  constructor
  · rw [dlog_prove_custom, if_pos h]
  · intro preimage
    rw [sha256_prove_custom]
    cases oracle (preimage ++ aux_input) with
    | none => simp
    | some journal =>
      by_cases hj : journal.length ≠ 32 + P.appendix_len
      · simp [hj]
      · simp [hj]

/-- Witness for `prove_custom_input_length_spec` with an empty auxiliary
input against a declared length of 174. -/
theorem prove_custom_input_length_spec_witness :
    ([] : List Nat).length ≠
      (ProgramDesc.mk (List.replicate 32 0) 174 129).aux_input_len ∧
    (dlog_prove_custom hashZero natSer natSmulG (fun _ => none)
        ⟨List.replicate 32 0, 174, 129⟩ 0 [] = .error .InputLengthMismatch
    ∧ ∀ preimage, sha256_prove_custom (fun _ => none)
        ⟨List.replicate 32 0, 174, 129⟩ preimage [] ≠
        .error .InputLengthMismatch) :=
  ⟨by decide,
    prove_custom_input_length_spec hashZero natSer natSmulG (fun _ => none)
      ⟨List.replicate 32 0, 174, 129⟩ 0 [] (by decide)⟩

/-! ### C10: unconditional journal indexing in the accessors -/

/-- C10: journal length is validated only inside `prove_custom`, never
at deserialization.  The `hash()` accessor panics (modelled `none`) on
any journal shorter than 32 bytes, the sha256_sudoku `puzzle()` accessor
panics on any journal shorter than 125 bytes, and on longer journals
both return the unconditionally indexed slices. -/
theorem accessor_panic_spec :
    (∀ journal : List Nat, journal.length < 32 →
      sha256_hash_accessor journal = none)
    ∧ (∀ journal : List Nat, journal.length < 125 →
      sha256_sudoku_puzzle journal = none)
    ∧ (∀ journal : List Nat, 32 ≤ journal.length →
      sha256_hash_accessor journal = some (journal.take 32))
    ∧ (∀ journal : List Nat, 125 ≤ journal.length →
      sha256_sudoku_puzzle journal =
        some (((journal.drop 32).drop 12).take 81)) := by
  refine ⟨?_, ?_, ?_, ?_⟩
  · intro journal hshort
    rw [sha256_hash_accessor, if_pos hshort]
  · intro journal hshort
    rw [sha256_sudoku_puzzle]
    by_cases h32 : journal.length < 32
    · rw [if_pos h32]
    · rw [if_neg h32]
      by_cases h12 : (journal.drop 32).length < 12
      · rw [if_pos h12]
      · rw [if_neg h12]
        rw [if_pos (by simp [List.length_drop] at h12 ⊢; omega)]
  · intro journal hlong
    rw [sha256_hash_accessor, if_neg (by omega)]
  · intro journal hlong
    rw [sha256_sudoku_puzzle, if_neg (by omega),
      if_neg (by simp [List.length_drop]; omega),
      if_neg (by simp [List.length_drop]; omega)]

/-- Witness for `accessor_panic_spec` at concrete short and long
journals. -/
theorem accessor_panic_spec_witness :
    sha256_hash_accessor [] = none
    ∧ sha256_sudoku_puzzle (List.replicate 124 0) = none
    ∧ sha256_hash_accessor (List.replicate 32 0) =
        some ((List.replicate 32 (0 : Nat)).take 32)
    ∧ sha256_sudoku_puzzle (List.replicate 125 0) =
        some ((((List.replicate 125 (0 : Nat)).drop 32).drop 12).take 81) :=
  ⟨accessor_panic_spec.1 [] (by decide),
    accessor_panic_spec.2.1 (List.replicate 124 0) (by decide),
    accessor_panic_spec.2.2.1 (List.replicate 32 0) (by decide),
    accessor_panic_spec.2.2.2 (List.replicate 125 0) (by decide)⟩

end ZKCP
